import Mathlib

/-!
Shallow embedding of the symbol-management and code-emission engine of the
Svelte `Component` class (`src/compile/Component.ts` in this repository) and
of the `dom` renderer entry point, together with proofs of the specified
properties: alias uniqueness and determinism, collision resolution,
span-marker splicing, sigil resolution, ref validation and diagnostics.
-/

set_option maxHeartbeats 1000000

structure CompileConfig where
  test : Bool
  reserved : Finset String
  shared : Finset String
  dev : Bool
  ssr : Bool

structure NamingState where
  userVars : Finset String
  usedNames : Finset String
  aliases : List (String × String)

namespace Component

def candidateName (name : String) (i : Nat) : String :=
  if i = 0 then name else name ++ "_" ++ Nat.repr i

def findFreeIndex (bad : String → Bool) (name : String) : Nat → Nat → Nat
  | 0, i => i
  | fuel + 1, i =>
    if bad (candidateName name i) then findFreeIndex bad name fuel (i + 1) else i

def isForbidden (cfg : CompileConfig) (s : NamingState) (a : String) : Bool :=
  decide (a ∈ cfg.reserved ∨ a ∈ s.userVars ∨ a ∈ s.usedNames)

def getUniqueName (cfg : CompileConfig) (s : NamingState) (name0 : String) :
    String × NamingState :=
  let name := if cfg.test then name0 ++ "$" else name0
  let fuel := (cfg.reserved ∪ s.userVars ∪ s.usedNames).card + 1
  let a := candidateName name (findFreeIndex (isForbidden cfg s) name fuel 0)
  (a, { s with usedNames := insert a s.usedNames })

def «alias» (cfg : CompileConfig) (s : NamingState) (name : String) :
    String × NamingState :=
  match s.aliases.lookup name with
  | some a => (a, s)
  | none =>
    let p := getUniqueName cfg s name
    (p.1, { p.2 with aliases := (name, p.1) :: p.2.aliases })

end Component

def decVal : List Char → Nat
  | [] => 0
  | c :: cs => (c.toNat - 48) * 10 ^ cs.length + decVal cs

inductive NameRequest where
  | aliasReq (name : String)
  | uniqueReq (name : String)

def runRequests (cfg : CompileConfig) : NamingState → List NameRequest →
    List String × NamingState
  | s, [] => ([], s)
  | s, NameRequest.aliasReq n :: rest =>
    let p := Component.«alias» cfg s n
    let q := runRequests cfg p.2 rest
    (p.1 :: q.1, q.2)
  | s, NameRequest.uniqueReq n :: rest =>
    let p := Component.getUniqueName cfg s n
    let q := runRequests cfg p.2 rest
    (p.1 :: q.1, q.2)

def aliasArgs : List NameRequest → List String
  | [] => []
  | NameRequest.aliasReq n :: rest => n :: aliasArgs rest
  | NameRequest.uniqueReq _ :: rest => aliasArgs rest

namespace Component

def getUniqueNameMaker (cfg : CompileConfig) (s : NamingState) : Finset String :=
  cfg.reserved ∪ s.userVars

def makerForbidden (s : NamingState) (localUsedNames : Finset String)
    (a : String) : Bool :=
  decide (a ∈ s.usedNames ∨ a ∈ localUsedNames)

def uniqueNameMakerCall (cfg : CompileConfig) (s : NamingState)
    (localUsedNames : Finset String) (name0 : String) :
    String × NamingState × Finset String :=
  let name := if cfg.test then name0 ++ "$" else name0
  let fuel := (s.usedNames ∪ localUsedNames).card + 1
  let a := candidateName name
    (findFreeIndex (makerForbidden s localUsedNames) name fuel 0)
  (a, s, insert a localUsedNames)

end Component

structure Diagnostic where
  code : String
  message : String
  pos : Nat
  endPos : Nat
deriving DecidableEq

structure RefUsage where
  start : Nat
  stop : Nat
  ref : String
deriving DecidableEq

def editDistanceAux : Nat → List Char → List Char → Nat
  | 0, xs, ys => xs.length + ys.length
  | _ + 1, [], ys => ys.length
  | _ + 1, xs, [] => xs.length
  | f + 1, x :: xs, y :: ys =>
    if x = y then editDistanceAux f xs ys
    else 1 + min (editDistanceAux f xs (y :: ys))
          (min (editDistanceAux f (x :: xs) ys) (editDistanceAux f xs ys))

def editDistance (xs ys : List Char) : Nat :=
  editDistanceAux (xs.length + ys.length) xs ys

def fuzzymatch (name : String) (pool : List String) : Option String :=
  let best := pool.foldl
    (fun acc c =>
      let d := editDistance name.data c.data
      match acc with
      | none => some (c, d)
      | some q => if d < q.2 then some (c, d) else some q)
    none
  match best with
  | some (c, d) => if 2 * d ≤ name.length then some c else none
  | none => none

def strOccurs (needle hay : String) : Bool :=
  hay.data.tails.any (fun t => needle.data.isPrefixOf t)

def missingRefMessage (refs : List String) (ref : String) : String :=
  let message := "'refs." ++ ref ++ "' does not exist"
  match fuzzymatch ref refs with
  | some m => message ++ " (did you mean 'refs." ++ m ++ "'?)"
  | none => message

def validateRefs (refs : List String) : List RefUsage → Except Diagnostic Unit
  | [] => Except.ok ()
  | u :: rest =>
    if refs.contains u.ref then validateRefs refs rest
    else Except.error ⟨"missing-ref", missingRefMessage refs u.ref, u.start, u.stop⟩

structure JsNode where
  type : String
  start : Nat
  stop : Nat
  specifierLocalNames : List String
deriving DecidableEq

structure JsBlock where
  start : Nat
  stop : Nat
  body : List JsNode
deriving DecidableEq

structure Ast where
  js : Option JsBlock
deriving DecidableEq

structure WalkJsResult where
  userVars : Finset String
  declarations : List String
  imports : List JsNode
  removed : List (Nat × Nat)
  javascript : String × String
deriving DecidableEq

def walkBody : List JsNode → Finset String → List (Nat × Nat) → List JsNode →
    Except Diagnostic (Finset String × List (Nat × Nat) × List JsNode)
  | [], uv, rem, imps => Except.ok (uv, rem, imps)
  | node :: rest, uv, rem, imps =>
    if node.type = "ExportDefaultDeclaration" then
      Except.error ⟨"default-export", "A component cannot have a default export",
        node.start, node.stop⟩
    else if node.type = "ImportDeclaration" then
      walkBody rest (uv ∪ node.specifierLocalNames.toFinset)
        (rem ++ [(node.start, node.stop)]) (imps ++ [node])
    else
      walkBody rest uv rem imps

def advanceWs (src : List Char) : Nat → Nat → Nat
  | 0, a => a
  | f + 1, a =>
    if (src.get? a).elim false Char.isWhitespace then advanceWs src f (a + 1) else a

def retreatWs (src : List Char) : Nat → Nat → Nat
  | 0, b => b
  | f + 1, b =>
    if b = 0 then b
    else if (src.get? (b - 1)).elim false Char.isWhitespace then
      retreatWs src f (b - 1)
    else b

def spanMarker (a b : Nat) : String :=
  "[✂" ++ Nat.repr a ++ "-" ++ Nat.repr b ++ "✂]"

def walkJs (source : String) (ast : Ast) (scopeDecls scopeGlobals : List String) :
    Except Diagnostic WalkJsResult :=
  match ast.js with
  | none => Except.ok ⟨∅, [], [], [], ("", "")⟩
  | some js =>
    let uv0 := scopeDecls.toFinset ∪ scopeGlobals.toFinset
    match walkBody js.body uv0 [] [] with
    | Except.error d => Except.error d
    | Except.ok (uv, rem, imps) =>
      let a := advanceWs source.data (source.length + 1) js.start
      let b := retreatWs source.data (source.length + 1) js.stop
      Except.ok ⟨uv, scopeDecls, imps, rem,
        (if a ≠ b then spanMarker a b else "", "")⟩

structure CategoryMember where
  name : String
  start : Nat
  stop : Nat
deriving DecidableEq

structure DefaultExportDecl where
  properties : List (String × List CategoryMember)
deriving DecidableEq

structure UsedSets where
  components : Finset String
  helpers : Finset String
  events : Finset String
  animations : Finset String
  transitions : Finset String
  actions : Finset String

def UsedSets.ofCategory (u : UsedSets) : String → Finset String
  | "components" => u.components
  | "helpers" => u.helpers
  | "events" => u.events
  | "animations" => u.animations
  | "transitions" => u.transitions
  | "actions" => u.actions
  | _ => ∅

def categories : List (String × String) :=
  [("components", "component"), ("helpers", "helper"),
   ("events", "event definition"), ("transitions", "transition"),
   ("actions", "actions")]

def unusedCategoryWarnings (defaultExport : Option DefaultExportDecl)
    (used : UsedSets) : List Diagnostic :=
  match defaultExport with
  | none => []
  | some de =>
    (categories.map (fun cp =>
      match de.properties.lookup cp.1 with
      | some members =>
        members.filterMap (fun m =>
          if m.name ∈ used.ofCategory cp.1 then none
          else some ⟨"unused-" ++ cp.1.dropRight 1,
            "The '" ++ m.name ++ "' " ++ cp.2 ++ " is unused", m.start, m.stop⟩)
      | none => [])).flatten

structure InitInput where
  ast : Ast
  source : String
  name : String
  scopeDecls : List String
  scopeGlobals : List String
  used : UsedSets
  refs : List String
  refCallees : List RefUsage

structure ComponentInit where
  naming : NamingState
  name : String
  declarations : List String
  imports : List JsNode
  removed : List (Nat × Nat)
  javascript : String × String
  warnings : List Diagnostic

def componentInit (cfg : CompileConfig) (inp : InitInput) :
    Except Diagnostic ComponentInit :=
  match walkJs inp.source inp.ast inp.scopeDecls inp.scopeGlobals with
  | Except.error d => Except.error d
  | Except.ok w =>
    let p := Component.«alias» cfg ⟨w.userVars, ∅, []⟩ inp.name
    let warnings := unusedCategoryWarnings none inp.used
    match validateRefs inp.refs inp.refCallees with
    | Except.error d => Except.error d
    | Except.ok _ =>
      Except.ok ⟨p.2, p.1, w.declarations, w.imports, w.removed, w.javascript,
        warnings⟩

def domClassDeclaration (r : ComponentInit) : String :=
  "class " ++ r.name ++ " extends @SvelteComponent \x7b"

def inRanges (ranges : List (Nat × Nat)) (i : Nat) : Bool :=
  ranges.any (fun r => decide (r.1 ≤ i ∧ i < r.2))

def msSnip (source : String) (removed : List (Nat × Nat)) (s e : Nat) : String :=
  ⟨(List.range' s (e - s)).filterMap
    (fun i => if inRanges removed i then none else source.data.get? i)⟩

def sourceSlice (source : String) (s e : Nat) : String :=
  ⟨(List.range' s (e - s)).filterMap (fun i => source.data.get? i)⟩

structure BundleSource where
  filename : Option String
  content : String
  origRange : Option (Nat × Nat)
deriving DecidableEq

def digitsToNat (ds : List Char) : Nat :=
  ds.foldl (fun n c => n * 10 + (c.toNat - 48)) 0

def parseSpanMarker (str : String) : Option (String × Nat × Nat) :=
  let rev := str.data.reverse
  let d2 := rev.takeWhile Char.isDigit
  let rest1 := rev.dropWhile Char.isDigit
  if d2.isEmpty then none
  else
    match rest1 with
    | '-' :: rest2 =>
      let d1 := rest2.takeWhile Char.isDigit
      let rest3 := rest2.dropWhile Char.isDigit
      if d1.isEmpty then none
      else
        match rest3 with
        | '✂' :: '[' :: rest4 =>
          some (rest4.reverse.asString, digitsToNat d1.reverse, digitsToNat d2.reverse)
        | _ => none
    | _ => none

def splitFirst (sep : List Char) : Nat → List Char → Option (List Char × List Char)
  | 0, _ => none
  | f + 1, cs =>
    if sep.isPrefixOf cs then some ([], cs.drop sep.length)
    else
      match cs with
      | [] => none
      | c :: rest =>
        match splitFirst sep f rest with
        | some p => some (c :: p.1, p.2)
        | none => none

def jsSplitAux (sep : List Char) : Nat → List Char → List (List Char)
  | 0, cs => [cs]
  | f + 1, cs =>
    match splitFirst sep (cs.length + 1) cs with
    | none => [cs]
    | some p => p.1 :: jsSplitAux sep f p.2

def jsSplit (s sep : String) : List String :=
  (jsSplitAux sep.data (s.data.length + 1) s.data).map List.asString

def emitParts (source : String) (removed : List (Nat × Nat))
    (filename : Option String) : List String → Option (List BundleSource)
  | [] => some []
  | str :: rest =>
    match parseSpanMarker str with
    | none => none
    | some p =>
      match emitParts source removed filename rest with
      | none => none
      | some segs =>
        some ((if p.1 = "" then [] else [⟨none, p.1, none⟩]) ++
          ⟨filename, msSnip source removed p.2.1 p.2.2, some (p.2.1, p.2.2)⟩ :: segs)

def generateSegments (source : String) (removed : List (Nat × Nat))
    (filename : Option String) (module : String) : Option (List BundleSource) :=
  match emitParts source removed filename ((jsSplit module "✂]").dropLast) with
  | none => none
  | some segs =>
    some ((if ((jsSplit module "✂]").dropLast).isEmpty then
        [⟨filename, msSnip source [(0, source.length)] 0 source.length, none⟩]
      else []) ++ segs ++ [⟨none, (jsSplit module "✂]").getLastD "", none⟩])

structure EmitState where
  naming : NamingState
  helpers : Finset String

def jsCoerceString : Option String → String
  | some s => s
  | none => "undefined"

def resolveSigil (cfg : CompileConfig) (templateVars : List (String × String))
    (st : EmitState) (sigil name : String) : String × EmitState :=
  if sigil = "@" then
    if name ∈ cfg.shared then
      let name1 := if cfg.dev && (name ++ "Dev") ∈ cfg.shared then name ++ "Dev"
        else name
      let p := Component.«alias» cfg st.naming name1
      (p.1, ⟨p.2, insert name1 st.helpers⟩)
    else
      let p := Component.«alias» cfg st.naming name
      (p.1, ⟨p.2, st.helpers⟩)
  else if sigil = "%" then
    (jsCoerceString (templateVars.lookup name), st)
  else
    (sigil.drop 1 ++ name, st)

def isSigilChar (cfg : CompileConfig) (c : Char) : Bool :=
  if cfg.ssr then c = '@' || c = '#' || c = '%' else c = '%' || c = '@'

def isWordChar (c : Char) : Bool :=
  c.isAlphanum || c = '_'

def replaceSigilsAux (cfg : CompileConfig) (templateVars : List (String × String)) :
    Nat → EmitState → List Char → List Char × EmitState
  | 0, st, cs => (cs, st)
  | _ + 1, st, [] => ([], st)
  | f + 1, st, c :: rest =>
    if isSigilChar cfg c then
      let run := (c :: rest).takeWhile (fun x => x = c)
      let rest1 := (c :: rest).dropWhile (fun x => x = c)
      let w1 := rest1.takeWhile isWordChar
      let rest2 := rest1.dropWhile isWordChar
      let w2r : List Char × List Char :=
        match rest2 with
        | '-' :: r => ('-' :: r.takeWhile isWordChar, r.dropWhile isWordChar)
        | _ => ([], rest2)
      let p := resolveSigil cfg templateVars st run.asString (w1 ++ w2r.1).asString
      let q := replaceSigilsAux cfg templateVars f p.2 w2r.2
      (p.1.data ++ q.1, q.2)
    else
      let q := replaceSigilsAux cfg templateVars f st rest
      (c :: q.1, q.2)

def replaceSigils (cfg : CompileConfig) (templateVars : List (String × String))
    (st : EmitState) (s : String) : String × EmitState :=
  ((replaceSigilsAux cfg templateVars (s.data.length + 1) st s.data).1.asString,
   (replaceSigilsAux cfg templateVars (s.data.length + 1) st s.data).2)

/-! ### Theorems -/

theorem digitChar_toNat : ∀ k, k < 10 → (Nat.digitChar k).toNat = 48 + k := by
  decide

theorem toDigitsCore_decVal :
    ∀ (fuel n : Nat) (ds : List Char), n < fuel →
      decVal (Nat.toDigitsCore 10 fuel n ds) = n * 10 ^ ds.length + decVal ds := by
  intro fuel
  induction fuel with
  | zero => intro n ds h; omega
  | succ f ih =>
    intro n ds h
    simp only [Nat.toDigitsCore]
    have hmod : n % 10 < 10 := Nat.mod_lt _ (by omega)
    have hchar : (Nat.digitChar (n % 10)).toNat - 48 = n % 10 := by
      rw [digitChar_toNat _ hmod]; omega
    by_cases hdiv : n / 10 = 0
    · have hn : n < 10 := by omega
      rw [if_pos hdiv]
      simp only [decVal, hchar]
      have : n % 10 = n := Nat.mod_eq_of_lt hn
      rw [this]
    · rw [if_neg hdiv]
      have hlt : n / 10 < f := by
        have h1 : n / 10 < n := Nat.div_lt_self (by omega) (by omega)
        omega
      rw [ih (n / 10) (Nat.digitChar (n % 10) :: ds) hlt]
      simp only [decVal, List.length_cons, hchar]
      have hnm : 10 * (n / 10) + n % 10 = n := Nat.div_add_mod n 10
      calc n / 10 * 10 ^ (ds.length + 1) + (n % 10 * 10 ^ ds.length + decVal ds)
          = (10 * (n / 10) + n % 10) * 10 ^ ds.length + decVal ds := by ring
        _ = n * 10 ^ ds.length + decVal ds := by rw [hnm]

theorem repr_decVal (n : Nat) : decVal (Nat.repr n).data = n := by
  show decVal (Nat.toDigits 10 n).asString.data = n
  have : (Nat.toDigits 10 n).asString.data = Nat.toDigits 10 n := rfl
  rw [this]
  show decVal (Nat.toDigitsCore 10 (n + 1) n []) = n
  rw [toDigitsCore_decVal (n + 1) n [] (by omega)]
  simp [decVal]

theorem repr_data_injective (m n : Nat) (h : (Nat.repr m).data = (Nat.repr n).data) :
    m = n := by
  have := congrArg decVal h
  simpa [repr_decVal] using this

theorem candidateName_zero (name : String) : Component.candidateName name 0 = name := by
  simp [Component.candidateName]

theorem candidateName_ne_zero (name : String) (i : Nat) (h : i ≠ 0) :
    Component.candidateName name i = name ++ "_" ++ Nat.repr i := by
  simp [Component.candidateName, h]

theorem candidateName_injective (name : String) :
    Function.Injective (Component.candidateName name) := by
  have hlen : ∀ j : Nat, j ≠ 0 →
      name.length < (Component.candidateName name j).length := by
    intro j hj
    rw [candidateName_ne_zero name j hj]
    simp only [String.length_append]
    have h1 : ("_" : String).length = 1 := by decide
    omega
  intro i j h
  by_cases hi : i = 0 <;> by_cases hj : j = 0
  · omega
  · exfalso
    have := hlen j hj
    rw [← h, hi, candidateName_zero] at this
    omega
  · exfalso
    have := hlen i hi
    rw [h, hj, candidateName_zero] at this
    omega
  · rw [candidateName_ne_zero name i hi, candidateName_ne_zero name j hj] at h
    have hdata := congrArg String.data h
    simp only [String.data_append] at hdata
    have h2 : (Nat.repr i).data = (Nat.repr j).data :=
      List.append_cancel_left hdata
    exact repr_data_injective i j h2

theorem findFreeIndex_ge (bad : String → Bool) (name : String) :
    ∀ fuel i, i ≤ Component.findFreeIndex bad name fuel i := by
  intro fuel
  induction fuel with
  | zero => intro i; simp [Component.findFreeIndex]
  | succ f ih =>
    intro i
    simp only [Component.findFreeIndex]
    by_cases hb : bad (Component.candidateName name i) = true
    · rw [if_pos hb]
      have := ih (i + 1)
      omega
    · rw [if_neg hb]

theorem findFreeIndex_not_bad (bad : String → Bool) (name : String) :
    ∀ fuel i,
      (∃ j, i ≤ j ∧ j < i + fuel ∧ bad (Component.candidateName name j) = false) →
      bad (Component.candidateName name (Component.findFreeIndex bad name fuel i)) = false := by
  intro fuel
  induction fuel with
  | zero =>
    intro i h
    obtain ⟨j, h1, h2, _⟩ := h
    omega
  | succ f ih =>
    intro i h
    obtain ⟨j, h1, h2, h3⟩ := h
    simp only [Component.findFreeIndex]
    by_cases hb : bad (Component.candidateName name i) = true
    · rw [if_pos hb]
      apply ih (i + 1)
      refine ⟨j, ?_, by omega, h3⟩
      rcases Nat.eq_or_lt_of_le h1 with rfl | hlt
      · rw [h3] at hb; exact absurd hb (by simp)
      · omega
    · rw [if_neg hb]
      simpa using hb

theorem exists_free_candidate (bad : Finset String) (name : String) :
    ∃ j, j ≤ bad.card ∧ Component.candidateName name j ∉ bad := by
  by_contra hc
  push_neg at hc
  have hmem : ∀ j ∈ Finset.range (bad.card + 1), Component.candidateName name j ∈ bad := by
    intro j hj
    rw [Finset.mem_range] at hj
    exact hc j (by omega)
  have hinj : Set.InjOn (Component.candidateName name) (Finset.range (bad.card + 1)) :=
    fun a _ b _ h => candidateName_injective name h
  have := Finset.card_le_card_of_injOn _ hmem hinj
  rw [Finset.card_range] at this
  omega

theorem isForbidden_eq_false_iff (cfg : CompileConfig) (s : NamingState) (a : String) :
    Component.isForbidden cfg s a = false ↔
      a ∉ cfg.reserved ∧ a ∉ s.userVars ∧ a ∉ s.usedNames := by
  simp [Component.isForbidden, not_or]

theorem getUniqueName_fresh (cfg : CompileConfig) (s : NamingState) (name0 : String) :
    (Component.getUniqueName cfg s name0).1 ∉ cfg.reserved ∧
    (Component.getUniqueName cfg s name0).1 ∉ s.userVars ∧
    (Component.getUniqueName cfg s name0).1 ∉ s.usedNames := by
  set name := if cfg.test then name0 ++ "$" else name0 with hname
  set B := cfg.reserved ∪ s.userVars ∪ s.usedNames with hB
  have hfree : ∃ j, 0 ≤ j ∧ j < 0 + (B.card + 1) ∧
      Component.isForbidden cfg s (Component.candidateName name j) = false := by
    obtain ⟨j, hj1, hj2⟩ := exists_free_candidate B name
    refine ⟨j, by omega, by omega, ?_⟩
    rw [isForbidden_eq_false_iff]
    rw [hB] at hj2
    simp only [Finset.mem_union, not_or] at hj2
    exact ⟨hj2.1.1, hj2.1.2, hj2.2⟩
  have := findFreeIndex_not_bad (Component.isForbidden cfg s) name (B.card + 1) 0 hfree
  rw [isForbidden_eq_false_iff] at this
  exact this

theorem getUniqueName_usedNames (cfg : CompileConfig) (s : NamingState) (name0 : String) :
    ((Component.getUniqueName cfg s name0).2).usedNames =
      insert (Component.getUniqueName cfg s name0).1 s.usedNames := rfl

theorem getUniqueName_userVars (cfg : CompileConfig) (s : NamingState) (name0 : String) :
    ((Component.getUniqueName cfg s name0).2).userVars = s.userVars := rfl

theorem getUniqueName_aliases (cfg : CompileConfig) (s : NamingState) (name0 : String) :
    ((Component.getUniqueName cfg s name0).2).aliases = s.aliases := rfl

theorem getUniqueName_collision (cfg : CompileConfig) (s : NamingState) (name0 : String)
    (hcol : Component.isForbidden cfg s (if cfg.test then name0 ++ "$" else name0) = true) :
    ∃ i, 1 ≤ i ∧ (Component.getUniqueName cfg s name0).1 =
      (if cfg.test then name0 ++ "$" else name0) ++ "_" ++ Nat.repr i := by
  set name := if cfg.test then name0 ++ "$" else name0 with hname
  set B := cfg.reserved ∪ s.userVars ∪ s.usedNames with hB
  set k := Component.findFreeIndex (Component.isForbidden cfg s) name (B.card + 1) 0 with hk
  have hres : (Component.getUniqueName cfg s name0).1 = Component.candidateName name k := rfl
  have hfree : ∃ j, 0 ≤ j ∧ j < 0 + (B.card + 1) ∧
      Component.isForbidden cfg s (Component.candidateName name j) = false := by
    obtain ⟨j, hj1, hj2⟩ := exists_free_candidate B name
    refine ⟨j, by omega, by omega, ?_⟩
    rw [isForbidden_eq_false_iff]
    rw [hB] at hj2
    simp only [Finset.mem_union, not_or] at hj2
    exact ⟨hj2.1.1, hj2.1.2, hj2.2⟩
  have hnb := findFreeIndex_not_bad (Component.isForbidden cfg s) name (B.card + 1) 0 hfree
  rw [← hk] at hnb
  have hkne : k ≠ 0 := by
    intro h0
    rw [h0, candidateName_zero] at hnb
    rw [hnb] at hcol
    exact Bool.false_ne_true hcol
  refine ⟨k, by omega, ?_⟩
  rw [hres, candidateName_ne_zero name k hkne]

theorem alias_lookup_none (cfg : CompileConfig) (s : NamingState) (n : String)
    (h : s.aliases.lookup n = none) :
    Component.«alias» cfg s n =
      ((Component.getUniqueName cfg s n).1,
       { (Component.getUniqueName cfg s n).2 with
          aliases := (n, (Component.getUniqueName cfg s n).1) ::
            ((Component.getUniqueName cfg s n).2).aliases }) := by
  unfold Component.«alias»
  rw [h]

theorem alias_lookup_some (cfg : CompileConfig) (s : NamingState) (n a : String)
    (h : s.aliases.lookup n = some a) :
    Component.«alias» cfg s n = (a, s) := by
  unfold Component.«alias»
  rw [h]

theorem alias_lookup_self (cfg : CompileConfig) (s : NamingState) (n : String) :
    ((Component.«alias» cfg s n).2).aliases.lookup n =
      some (Component.«alias» cfg s n).1 := by
  unfold Component.«alias»
  cases h : s.aliases.lookup n with
  | some a => simpa using h
  | none => simp [List.lookup]

theorem alias_lookup_mono (cfg : CompileConfig) (s : NamingState) (n x v : String)
    (h : s.aliases.lookup x = some v) :
    ((Component.«alias» cfg s n).2).aliases.lookup x = some v := by
  unfold Component.«alias»
  cases hn : s.aliases.lookup n with
  | some a => simpa using h
  | none =>
    simp only [List.lookup, getUniqueName_aliases]
    cases hxn : (x == n) with
    | true =>
      rw [eq_of_beq hxn, hn] at h
      exact Option.noConfusion h
    | false => exact h

theorem runRequests_lookup_mono (cfg : CompileConfig) (reqs : List NameRequest) :
    ∀ (s : NamingState) (x v : String), s.aliases.lookup x = some v →
      ((runRequests cfg s reqs).2).aliases.lookup x = some v := by
  induction reqs with
  | nil => intro s x v h; exact h
  | cons r rest ih =>
    intro s x v h
    cases r with
    | aliasReq n =>
      simp only [runRequests]
      exact ih _ x v (alias_lookup_mono cfg s n x v h)
    | uniqueReq n =>
      simp only [runRequests]
      exact ih _ x v (by rw [getUniqueName_aliases]; exact h)

theorem alias_deterministic (cfg : CompileConfig) (s : NamingState) (x : String)
    (reqs : List NameRequest) :
    (Component.«alias» cfg
        ((runRequests cfg ((Component.«alias» cfg s x).2) reqs).2) x).1 =
      (Component.«alias» cfg s x).1 := by
  have h1 := alias_lookup_self cfg s x
  have h2 := runRequests_lookup_mono cfg reqs _ x _ h1
  rw [alias_lookup_some cfg _ x _ h2]

theorem alias_miss (cfg : CompileConfig) (s : NamingState) (n : String)
    (h : s.aliases.lookup n = none) :
    (Component.«alias» cfg s n).1 = (Component.getUniqueName cfg s n).1 ∧
    ((Component.«alias» cfg s n).2).usedNames =
      insert (Component.«alias» cfg s n).1 s.usedNames ∧
    ((Component.«alias» cfg s n).2).userVars = s.userVars ∧
    ((Component.«alias» cfg s n).2).aliases =
      (n, (Component.«alias» cfg s n).1) :: s.aliases := by
  rw [alias_lookup_none cfg s n h]
  exact ⟨rfl, rfl, rfl, rfl⟩

theorem runRequests_master (cfg : CompileConfig) (reqs : List NameRequest) :
    ∀ (s : NamingState),
      (aliasArgs reqs).Nodup →
      (∀ x ∈ aliasArgs reqs, s.aliases.lookup x = none) →
      ((runRequests cfg s reqs).1.Nodup) ∧
      (∀ r ∈ (runRequests cfg s reqs).1,
         r ∉ cfg.reserved ∧ r ∉ s.userVars ∧ r ∉ s.usedNames ∧
         r ∈ ((runRequests cfg s reqs).2).usedNames) ∧
      ((runRequests cfg s reqs).2).userVars = s.userVars ∧
      (∀ a ∈ s.usedNames, a ∈ ((runRequests cfg s reqs).2).usedNames) := by
  induction reqs with
  | nil =>
    intro s _ _
    exact ⟨List.nodup_nil, by simp [runRequests], rfl, by simp [runRequests]⟩
  | cons r rest ih =>
    intro s hnodup hnone
    cases r with
    | aliasReq n =>
      have hn0 : s.aliases.lookup n = none := hnone n (by simp [aliasArgs])
      obtain ⟨hval, hused, huser, halias⟩ := alias_miss cfg s n hn0
      have hfresh := getUniqueName_fresh cfg s n
      rw [← hval] at hfresh
      have hnodup' : (aliasArgs rest).Nodup := by
        simpa [aliasArgs] using hnodup.of_cons
      have hhead : n ∉ aliasArgs rest := by
        have := hnodup
        simp only [aliasArgs] at this
        exact (List.nodup_cons.mp this).1
      have hnone' : ∀ x ∈ aliasArgs rest,
          ((Component.«alias» cfg s n).2).aliases.lookup x = none := by
        intro x hx
        rw [halias]
        have hxn : (x == n) = false := by
          rw [beq_eq_false_iff_ne]
          intro hcontra
          exact hhead (hcontra ▸ hx)
        simp only [List.lookup, hxn]
        exact hnone x (by simp [aliasArgs, hx])
      obtain ⟨ih1, ih2, ih3, ih4⟩ := ih ((Component.«alias» cfg s n).2) hnodup' hnone'
      simp only [runRequests]
      refine ⟨?_, ?_, ?_, ?_⟩
      · rw [List.nodup_cons]
        refine ⟨?_, ih1⟩
        intro hmem
        have := (ih2 _ hmem).2.2.1
        rw [hused] at this
        exact this (Finset.mem_insert_self _ _)
      · intro r hr
        rcases List.mem_cons.mp hr with rfl | hr'
        · refine ⟨hfresh.1, hfresh.2.1, hfresh.2.2, ?_⟩
          apply ih4
          rw [hused]
          exact Finset.mem_insert_self _ _
        · obtain ⟨q1, q2, q3, q4⟩ := ih2 r hr'
          rw [huser] at q2
          rw [hused] at q3
          exact ⟨q1, q2, fun hm => q3 (Finset.mem_insert_of_mem hm), q4⟩
      · rw [ih3, huser]
      · intro a ha
        apply ih4
        rw [hused]
        exact Finset.mem_insert_of_mem ha
    | uniqueReq n =>
      have hfresh := getUniqueName_fresh cfg s n
      have hnodup' : (aliasArgs rest).Nodup := by simpa [aliasArgs] using hnodup
      have hnone' : ∀ x ∈ aliasArgs rest,
          ((Component.getUniqueName cfg s n).2).aliases.lookup x = none := by
        intro x hx
        rw [getUniqueName_aliases]
        exact hnone x (by simp [aliasArgs, hx])
      obtain ⟨ih1, ih2, ih3, ih4⟩ := ih ((Component.getUniqueName cfg s n).2) hnodup' hnone'
      simp only [runRequests]
      refine ⟨?_, ?_, ?_, ?_⟩
      · rw [List.nodup_cons]
        refine ⟨?_, ih1⟩
        intro hmem
        have := (ih2 _ hmem).2.2.1
        rw [getUniqueName_usedNames] at this
        exact this (Finset.mem_insert_self _ _)
      · intro r hr
        rcases List.mem_cons.mp hr with rfl | hr'
        · refine ⟨hfresh.1, hfresh.2.1, hfresh.2.2, ?_⟩
          apply ih4
          rw [getUniqueName_usedNames]
          exact Finset.mem_insert_self _ _
        · obtain ⟨q1, q2, q3, q4⟩ := ih2 r hr'
          rw [getUniqueName_userVars] at q2
          rw [getUniqueName_usedNames] at q3
          exact ⟨q1, q2, fun hm => q3 (Finset.mem_insert_of_mem hm), q4⟩
      · rw [ih3, getUniqueName_userVars]
      · intro a ha
        apply ih4
        rw [getUniqueName_usedNames]
        exact Finset.mem_insert_of_mem ha

theorem alias_requests_not_always_distinct :
    (runRequests ⟨false, ∅, ∅, false, false⟩ ⟨∅, ∅, []⟩
        [NameRequest.aliasReq "x", NameRequest.aliasReq "x"]).1 = ["x", "x"] ∧
    ¬ (runRequests ⟨false, ∅, ∅, false, false⟩ ⟨∅, ∅, []⟩
        [NameRequest.aliasReq "x", NameRequest.aliasReq "x"]).1.Nodup := by
  constructor
  · rfl
  · decide

theorem alias_allocation_unique (cfg : CompileConfig) (s : NamingState)
    (reqs : List NameRequest) (hinit : s.aliases = [])
    (hnodup : (aliasArgs reqs).Nodup) :
    ((runRequests cfg s reqs).1.Nodup) ∧
    (∀ r ∈ (runRequests cfg s reqs).1, r ∉ cfg.reserved ∧ r ∉ s.userVars) := by
  have hnone : ∀ x ∈ aliasArgs reqs, s.aliases.lookup x = none := by
    intro x _
    rw [hinit]
    rfl
  obtain ⟨h1, h2, _, _⟩ := runRequests_master cfg reqs s hnodup hnone
  exact ⟨h1, fun r hr => ⟨(h2 r hr).1, (h2 r hr).2.1⟩⟩

theorem alias_allocation_unique_witness :
    ((runRequests ⟨false, {"get"}, ∅, false, false⟩ ⟨{"used"}, ∅, []⟩
        [NameRequest.aliasReq "get", NameRequest.uniqueReq "get",
         NameRequest.aliasReq "used"]).1.Nodup) ∧
    (∀ r ∈ (runRequests ⟨false, {"get"}, ∅, false, false⟩ ⟨{"used"}, ∅, []⟩
        [NameRequest.aliasReq "get", NameRequest.uniqueReq "get",
         NameRequest.aliasReq "used"]).1,
      r ∉ ({"get"} : Finset String) ∧ r ∉ ({"used"} : Finset String)) :=
  alias_allocation_unique ⟨false, {"get"}, ∅, false, false⟩ ⟨{"used"}, ∅, []⟩
    [NameRequest.aliasReq "get", NameRequest.uniqueReq "get",
     NameRequest.aliasReq "used"] rfl (by decide)

theorem alias_memoized_deterministic (cfg : CompileConfig) (s : NamingState)
    (x : String) (reqs : List NameRequest) :
    (Component.«alias» cfg
        ((runRequests cfg ((Component.«alias» cfg s x).2) reqs).2) x).1 =
      (Component.«alias» cfg s x).1 :=
  alias_deterministic cfg s x reqs

theorem collision_resolution_get :
    (Component.getUniqueName ⟨false, {"get"}, ∅, false, false⟩ ⟨∅, ∅, []⟩ "get").1
        = "get_1" ∧
    (Component.getUniqueName ⟨false, {"get"}, ∅, false, false⟩
        (Component.getUniqueName ⟨false, {"get"}, ∅, false, false⟩
          ⟨∅, ∅, []⟩ "get").2 "get").1 = "get_2" := by
  constructor
  · rfl
  · rfl

theorem childAllocator_fresh_and_frame (cfg : CompileConfig) (s : NamingState)
    (localUsedNames : Finset String) (name0 : String)
    (hseed : Component.getUniqueNameMaker cfg s ⊆ localUsedNames) :
    (Component.uniqueNameMakerCall cfg s localUsedNames name0).2.1 = s ∧
    (Component.uniqueNameMakerCall cfg s localUsedNames name0).1 ∉ cfg.reserved ∧
    (Component.uniqueNameMakerCall cfg s localUsedNames name0).1 ∉ s.userVars ∧
    (Component.uniqueNameMakerCall cfg s localUsedNames name0).1 ∉ s.usedNames ∧
    (Component.uniqueNameMakerCall cfg s localUsedNames name0).1 ∉ localUsedNames := by
  refine ⟨rfl, ?_⟩
  set name := if cfg.test then name0 ++ "$" else name0 with hname
  set B := s.usedNames ∪ localUsedNames with hB
  have hfree : ∃ j, 0 ≤ j ∧ j < 0 + (B.card + 1) ∧
      Component.makerForbidden s localUsedNames (Component.candidateName name j)
        = false := by
    obtain ⟨j, hj1, hj2⟩ := exists_free_candidate B name
    refine ⟨j, by omega, by omega, ?_⟩
    rw [hB] at hj2
    simp only [Finset.mem_union, not_or] at hj2
    simp [Component.makerForbidden, hj2.1, hj2.2]
  have hnb := findFreeIndex_not_bad (Component.makerForbidden s localUsedNames)
    name (B.card + 1) 0 hfree
  simp only [Component.makerForbidden, decide_eq_false_iff_not, not_or] at hnb
  have hres : (Component.uniqueNameMakerCall cfg s localUsedNames name0).1 =
      Component.candidateName name
        (Component.findFreeIndex (Component.makerForbidden s localUsedNames)
          name (B.card + 1) 0) := rfl
  rw [hres]
  refine ⟨?_, ?_, hnb.1, hnb.2⟩
  · intro hmem
    exact hnb.2 (hseed (Finset.mem_union_left _ hmem))
  · intro hmem
    exact hnb.2 (hseed (Finset.mem_union_right _ hmem))

theorem childAllocator_fresh_and_frame_witness :
    (Component.uniqueNameMakerCall ⟨false, {"res"}, ∅, false, false⟩
        ⟨{"usr"}, {"par"}, []⟩ ({"res"} ∪ {"usr"}) "res").2.1 = ⟨{"usr"}, {"par"}, []⟩ ∧
    (Component.uniqueNameMakerCall ⟨false, {"res"}, ∅, false, false⟩
        ⟨{"usr"}, {"par"}, []⟩ ({"res"} ∪ {"usr"}) "res").1 ∉ ({"res"} : Finset String) ∧
    (Component.uniqueNameMakerCall ⟨false, {"res"}, ∅, false, false⟩
        ⟨{"usr"}, {"par"}, []⟩ ({"res"} ∪ {"usr"}) "res").1 ∉
      (NamingState.mk {"usr"} {"par"} []).userVars ∧
    (Component.uniqueNameMakerCall ⟨false, {"res"}, ∅, false, false⟩
        ⟨{"usr"}, {"par"}, []⟩ ({"res"} ∪ {"usr"}) "res").1 ∉
      (NamingState.mk {"usr"} {"par"} []).usedNames ∧
    (Component.uniqueNameMakerCall ⟨false, {"res"}, ∅, false, false⟩
        ⟨{"usr"}, {"par"}, []⟩ ({"res"} ∪ {"usr"}) "res").1 ∉
      ({"res"} ∪ {"usr"} : Finset String) :=
  childAllocator_fresh_and_frame ⟨false, {"res"}, ∅, false, false⟩
    ⟨{"usr"}, {"par"}, []⟩ ({"res"} ∪ {"usr"}) "res" (by decide)

theorem validateRefs_error_of_miss (refs : List String) :
    ∀ callees : List RefUsage, (∃ u ∈ callees, refs.contains u.ref = false) →
      ∃ d, validateRefs refs callees = Except.error d ∧ d.code = "missing-ref" := by
  intro callees
  induction callees with
  | nil => intro h; obtain ⟨u, hu, _⟩ := h; exact absurd hu (List.not_mem_nil u)
  | cons v rest ih =>
    intro h
    by_cases hv : v.ref ∈ refs
    · obtain ⟨u, hu, hmiss⟩ := h
      rcases List.mem_cons.mp hu with rfl | hu'
      · exact absurd hmiss (by simp [hv])
      · obtain ⟨d, hd, hc⟩ := ih ⟨u, hu', hmiss⟩
        refine ⟨d, ?_, hc⟩
        simpa [validateRefs, hv] using hd
    · refine ⟨⟨"missing-ref", missingRefMessage refs v.ref, v.start, v.stop⟩, ?_, rfl⟩
      simp [validateRefs, hv]

theorem validateRefs_ok_no_miss (refs : List String) :
    ∀ callees : List RefUsage, validateRefs refs callees = Except.ok () →
      ∀ u ∈ callees, refs.contains u.ref = true := by
  intro callees
  induction callees with
  | nil => intro _ u hu; exact absurd hu (List.not_mem_nil u)
  | cons v rest ih =>
    intro hok u hu
    by_cases hv : v.ref ∈ refs
    · rcases List.mem_cons.mp hu with rfl | hu'
      · simpa using hv
      · exact ih (by simpa [validateRefs, hv] using hok) u hu'
    · exfalso
      simp [validateRefs, hv] at hok

theorem missing_ref_validation :
    (∀ (refs : List String) (callees : List RefUsage),
      (∃ u ∈ callees, refs.contains u.ref = false) →
      ∃ d, validateRefs refs callees = Except.error d ∧ d.code = "missing-ref") ∧
    (∀ (refs : List String) (callees : List RefUsage),
      validateRefs refs callees = Except.ok () →
      ∀ u ∈ callees, refs.contains u.ref = true) ∧
    (∃ d, validateRefs ["camera"] [⟨10, 20, "camra"⟩] = Except.error d ∧
      d.code = "missing-ref" ∧ strOccurs "camera" d.message = true) := by
  refine ⟨validateRefs_error_of_miss, validateRefs_ok_no_miss, ?_⟩
  refine ⟨⟨"missing-ref", missingRefMessage ["camera"] "camra", 10, 20⟩, ?_, rfl, ?_⟩
  · rfl
  · rfl

theorem missing_ref_validation_witness :
    ∃ d, validateRefs ["go"] [⟨0, 1, "stop"⟩] = Except.error d ∧
      d.code = "missing-ref" :=
  missing_ref_validation.1 ["go"] [⟨0, 1, "stop"⟩]
    ⟨⟨0, 1, "stop"⟩, by simp, by rfl⟩

theorem walkBody_export_default :
    ∀ (body : List JsNode) (uv : Finset String) (rem : List (Nat × Nat))
      (imps : List JsNode),
      (∃ node ∈ body, node.type = "ExportDefaultDeclaration") →
      ∃ d, walkBody body uv rem imps = Except.error d ∧ d.code = "default-export" := by
  intro body
  induction body with
  | nil =>
    intro uv rem imps h
    obtain ⟨node, hmem, _⟩ := h
    exact absurd hmem (List.not_mem_nil node)
  | cons node rest ih =>
    intro uv rem imps h
    by_cases ht : node.type = "ExportDefaultDeclaration"
    · exact ⟨⟨"default-export", "A component cannot have a default export",
        node.start, node.stop⟩, by simp [walkBody, ht], rfl⟩
    · have hrest : ∃ n ∈ rest, n.type = "ExportDefaultDeclaration" := by
        obtain ⟨n, hmem, hn⟩ := h
        rcases List.mem_cons.mp hmem with rfl | hmem'
        · exact absurd hn ht
        · exact ⟨n, hmem', hn⟩
      by_cases hi : node.type = "ImportDeclaration"
      · obtain ⟨d, hd, hc⟩ := ih (uv ∪ node.specifierLocalNames.toFinset)
          (rem ++ [(node.start, node.stop)]) (imps ++ [node]) hrest
        exact ⟨d, by simp [walkBody, ht, hi, hd], hc⟩
      · obtain ⟨d, hd, hc⟩ := ih uv rem imps hrest
        exact ⟨d, by simp [walkBody, ht, hi, hd], hc⟩

theorem componentInit_warnings_nil (cfg : CompileConfig) (inp : InitInput)
    (r : ComponentInit) (hok : componentInit cfg inp = Except.ok r) :
    r.warnings = [] := by
  unfold componentInit at hok
  cases hw : walkJs inp.source inp.ast inp.scopeDecls inp.scopeGlobals with
  | error d => rw [hw] at hok; exact absurd hok (by simp)
  | ok w =>
    rw [hw] at hok
    cases hv : validateRefs inp.refs inp.refCallees with
    | error d => rw [hv] at hok; exact absurd hok (by simp)
    | ok u =>
      rw [hv] at hok
      simp only [Except.ok.injEq] at hok
      rw [← hok]
      rfl

theorem unused_member_warning_counterexample :
    componentInit ⟨false, ∅, ∅, false, false⟩
      ⟨⟨some ⟨8, 40, [⟨"ExportDefaultDeclaration", 9, 39, []⟩]⟩⟩,
        "x", "App", [], [], ⟨∅, ∅, ∅, ∅, ∅, ∅⟩, [], []⟩ =
    Except.error ⟨"default-export", "A component cannot have a default export",
      9, 39⟩ := rfl

theorem unused_warnings_unreachable (cfg : CompileConfig) (inp : InitInput) :
    (∀ r, componentInit cfg inp = Except.ok r → r.warnings = []) ∧
    ((∃ blk, inp.ast.js = some blk ∧
        ∃ node ∈ blk.body, node.type = "ExportDefaultDeclaration") →
      ∃ d, componentInit cfg inp = Except.error d ∧ d.code = "default-export") ∧
    (∀ cp ∈ categories, cp.1 ≠ "animations") := by
  refine ⟨fun r => componentInit_warnings_nil cfg inp r, ?_, by decide⟩
  intro h
  obtain ⟨blk, hjs, hnode⟩ := h
  obtain ⟨d, hd, hc⟩ := walkBody_export_default blk.body
    (inp.scopeDecls.toFinset ∪ inp.scopeGlobals.toFinset) [] [] hnode
  refine ⟨d, ?_, hc⟩
  unfold componentInit walkJs
  rw [hjs]
  simp only [hd]

theorem unused_warnings_unreachable_witness :
    (∃ r, componentInit ⟨false, ∅, ∅, false, false⟩
        ⟨⟨none⟩, "x", "App", [], [], ⟨∅, ∅, ∅, ∅, ∅, ∅⟩, [], []⟩ =
          Except.ok r ∧ r.warnings = []) ∧
    (∃ d, componentInit ⟨false, ∅, ∅, false, false⟩
        ⟨⟨some ⟨8, 40, [⟨"ExportDefaultDeclaration", 9, 39, []⟩]⟩⟩,
          "x", "App", [], [], ⟨∅, ∅, ∅, ∅, ∅, ∅⟩, [], []⟩ =
          Except.error d ∧ d.code = "default-export") :=
  ⟨⟨⟨⟨∅, insert "App" ∅, [("App", "App")]⟩, "App", [], [], [], ("", ""), []⟩, rfl,
    (unused_warnings_unreachable ⟨false, ∅, ∅, false, false⟩
        ⟨⟨none⟩, "x", "App", [], [], ⟨∅, ∅, ∅, ∅, ∅, ∅⟩, [], []⟩).1 _ rfl⟩,
   (unused_warnings_unreachable ⟨false, ∅, ∅, false, false⟩
        ⟨⟨some ⟨8, 40, [⟨"ExportDefaultDeclaration", 9, 39, []⟩]⟩⟩,
          "x", "App", [], [], ⟨∅, ∅, ∅, ∅, ∅, ∅⟩, [], []⟩).2.1
     ⟨⟨8, 40, [⟨"ExportDefaultDeclaration", 9, 39, []⟩]⟩, rfl,
      ⟨"ExportDefaultDeclaration", 9, 39, []⟩, by simp, rfl⟩⟩

theorem component_name_aliased (cfg : CompileConfig) (inp : InitInput)
    (r : ComponentInit) (hok : componentInit cfg inp = Except.ok r) :
    r.name ∉ cfg.reserved ∧ r.name ∉ r.naming.userVars ∧
    domClassDeclaration r = "class " ++ r.name ++ " extends @SvelteComponent \x7b" ∧
    (Component.isForbidden cfg ⟨r.naming.userVars, ∅, []⟩
        (if cfg.test then inp.name ++ "$" else inp.name) = true →
      ∃ i, 1 ≤ i ∧ r.name =
        (if cfg.test then inp.name ++ "$" else inp.name) ++ "_" ++ Nat.repr i) := by
  unfold componentInit at hok
  cases hw : walkJs inp.source inp.ast inp.scopeDecls inp.scopeGlobals with
  | error d => rw [hw] at hok; exact absurd hok (by simp)
  | ok w =>
    rw [hw] at hok
    cases hv : validateRefs inp.refs inp.refCallees with
    | error d => rw [hv] at hok; exact absurd hok (by simp)
    | ok u =>
      rw [hv] at hok
      simp only [Except.ok.injEq] at hok
      subst hok
      obtain ⟨hval, hused, huser, halst⟩ :=
        alias_miss cfg ⟨w.userVars, ∅, []⟩ inp.name rfl
      have hfresh := getUniqueName_fresh cfg ⟨w.userVars, ∅, []⟩ inp.name
      rw [← hval] at hfresh
      refine ⟨hfresh.1, ?_, rfl, ?_⟩
      · show (Component.«alias» cfg ⟨w.userVars, ∅, []⟩ inp.name).1 ∉
          ((Component.«alias» cfg ⟨w.userVars, ∅, []⟩ inp.name).2).userVars
        rw [huser]
        exact hfresh.2.1
      · intro hcol
        have hcol' : Component.isForbidden cfg ⟨w.userVars, ∅, []⟩
            (if cfg.test then inp.name ++ "$" else inp.name) = true := by
          have heq : ((Component.«alias» cfg ⟨w.userVars, ∅, []⟩ inp.name).2).userVars
              = w.userVars := huser
          rw [heq] at hcol
          exact hcol
        obtain ⟨i, hi, hshape⟩ :=
          getUniqueName_collision cfg ⟨w.userVars, ∅, []⟩ inp.name hcol'
        refine ⟨i, hi, ?_⟩
        show (Component.«alias» cfg ⟨w.userVars, ∅, []⟩ inp.name).1 = _
        rw [hval, hshape]

theorem component_name_aliased_witness :
    ("App_1" : String) ∉ (insert "App" ∅ : Finset String) ∧
    ("App_1" : String) ∉
      (ComponentInit.mk ⟨∅, insert "App_1" ∅, [("App", "App_1")]⟩ "App_1"
        [] [] [] ("", "") []).naming.userVars ∧
    domClassDeclaration
        (ComponentInit.mk ⟨∅, insert "App_1" ∅, [("App", "App_1")]⟩ "App_1"
          [] [] [] ("", "") []) =
      "class " ++ "App_1" ++ " extends @SvelteComponent \x7b" ∧
    (Component.isForbidden ⟨false, insert "App" ∅, ∅, false, false⟩
        ⟨(ComponentInit.mk ⟨∅, insert "App_1" ∅, [("App", "App_1")]⟩ "App_1"
          [] [] [] ("", "") []).naming.userVars, ∅, []⟩
        (if (false : Bool) then "App" ++ "$" else "App") = true →
      ∃ i, 1 ≤ i ∧ "App_1" =
        (if (false : Bool) then "App" ++ "$" else "App") ++ "_" ++ Nat.repr i) :=
  component_name_aliased ⟨false, insert "App" ∅, ∅, false, false⟩
    ⟨⟨none⟩, "x", "App", [], [], ⟨∅, ∅, ∅, ∅, ∅, ∅⟩, [], []⟩
    (ComponentInit.mk ⟨∅, insert "App_1" ∅, [("App", "App_1")]⟩ "App_1"
      [] [] [] ("", "") []) rfl

theorem msSnip_eq_sourceSlice (source : String) (removed : List (Nat × Nat))
    (s e : Nat) (h : ∀ i, s ≤ i → i < e → inRanges removed i = false) :
    msSnip source removed s e = sourceSlice source s e := by
  unfold msSnip sourceSlice
  congr 1
  apply List.filterMap_congr
  intro i hi
  have hmem := List.mem_range'_1.mp hi
  rw [h i hmem.1 (by omega)]
  simp

theorem msSnip_full_remove (source : String) :
    msSnip source [(0, source.length)] 0 source.length = "" := by
  unfold msSnip
  have : ((List.range' 0 (source.length - 0)).filterMap
      (fun i => if inRanges [(0, source.length)] i then none
        else source.data.get? i)) = [] := by
    rw [List.filterMap_eq_nil_iff]
    intro i hi
    have hmem := List.mem_range'_1.mp hi
    have : inRanges [(0, source.length)] i = true := by
      simp [inRanges]
      omega
    rw [this]
    simp
  rw [this]

theorem emitParts_spec (source : String) (removed : List (Nat × Nat))
    (filename : Option String) :
    ∀ (front : List String) (segs : List BundleSource),
      emitParts source removed filename front = some segs →
      ∀ seg ∈ segs, ∀ s e, seg.origRange = some (s, e) →
        seg.filename = filename ∧ seg.content = msSnip source removed s e := by
  intro front
  induction front with
  | nil =>
    intro segs hok seg hseg s e hrange
    simp only [emitParts, Option.some.injEq] at hok
    rw [← hok] at hseg
    exact absurd hseg (List.not_mem_nil seg)
  | cons str rest ih =>
    intro segs hok seg hseg s e hrange
    unfold emitParts at hok
    cases hp : parseSpanMarker str with
    | none => rw [hp] at hok; exact absurd hok (by simp)
    | some p =>
      rw [hp] at hok
      cases he : emitParts source removed filename rest with
      | none => rw [he] at hok; exact absurd hok (by simp)
      | some segs' =>
        rw [he] at hok
        simp only [Option.some.injEq] at hok
        rw [← hok] at hseg
        rw [List.mem_append] at hseg
        rcases hseg with hlit | hrest
        · by_cases hchunk : p.1 = ""
          · rw [if_pos hchunk] at hlit
            exact absurd hlit (List.not_mem_nil seg)
          · rw [if_neg hchunk] at hlit
            rcases List.mem_singleton.mp hlit with rfl
            exact absurd hrange (by simp)
        · rcases List.mem_cons.mp hrest with rfl | hseg'
          · simp only [Option.some.injEq, Prod.mk.injEq] at hrange
            refine ⟨rfl, ?_⟩
            show msSnip source removed p.2.1 p.2.2 = msSnip source removed s e
            rw [hrange.1, hrange.2]
          · exact ih segs' he seg hseg' s e hrange

theorem span_splice_fidelity (source : String) (removed : List (Nat × Nat))
    (filename : Option String) (module : String) (segs : List BundleSource)
    (hok : generateSegments source removed filename module = some segs) :
    ∀ seg ∈ segs, ∀ s e, seg.origRange = some (s, e) →
      seg.filename = filename ∧ seg.content = msSnip source removed s e ∧
      ((∀ i, s ≤ i → i < e → inRanges removed i = false) →
        seg.content = sourceSlice source s e) := by
  intro seg hseg s e hrange
  unfold generateSegments at hok
  cases he : emitParts source removed filename ((jsSplit module "✂]").dropLast) with
  | none => rw [he] at hok; exact absurd hok (by simp)
  | some segs' =>
    rw [he] at hok
    simp only [Option.some.injEq] at hok
    rw [← hok] at hseg
    rw [List.mem_append, List.mem_append] at hseg
    rcases hseg with (hbase | hmid) | hfin
    · exfalso
      by_cases hempty : ((jsSplit module "✂]").dropLast).isEmpty
      · rw [if_pos hempty] at hbase
        rcases List.mem_singleton.mp hbase with rfl
        simp at hrange
      · rw [if_neg hempty] at hbase
        exact absurd hbase (List.not_mem_nil seg)
    · obtain ⟨h1, h2⟩ := emitParts_spec source removed filename _ segs' he
        seg hmid s e hrange
      refine ⟨h1, h2, fun hno => ?_⟩
      rw [h2]
      exact msSnip_eq_sourceSlice source removed s e hno
    · exfalso
      rcases List.mem_singleton.mp hfin with rfl
      simp at hrange

theorem span_splice_fidelity_witness :
    (BundleSource.mk (some "f") "abc" (some (0, 3))).filename = some "f" ∧
    (BundleSource.mk (some "f") "abc" (some (0, 3))).content = msSnip "abc" [] 0 3 ∧
    ((∀ i, 0 ≤ i → i < 3 → inRanges [] i = false) →
      (BundleSource.mk (some "f") "abc" (some (0, 3))).content = sourceSlice "abc" 0 3) :=
  span_splice_fidelity "abc" [] (some "f") "x[✂0-3✂]y"
    [⟨none, "x", none⟩, ⟨some "f", "abc", some (0, 3)⟩, ⟨none, "y", none⟩] rfl
    ⟨some "f", "abc", some (0, 3)⟩ (by simp) 0 3 rfl

theorem span_splice_not_byte_identical :
    walkJs "<script> import a from 'x'; var y = 1; </script>"
        ⟨some ⟨8, 39, [⟨"ImportDeclaration", 9, 27, ["a"]⟩,
          ⟨"VariableDeclaration", 28, 38, []⟩]⟩⟩ ["y"] [] =
      Except.ok ⟨insert "y" (insert "a" ∅), ["y"],
        [⟨"ImportDeclaration", 9, 27, ["a"]⟩], [(9, 27)], ("[✂9-38✂]", "")⟩ ∧
    generateSegments "<script> import a from 'x'; var y = 1; </script>" [(9, 27)]
        (some "App.html") "[✂9-38✂]" =
      some [⟨some "App.html", " var y = 1;", some (9, 38)⟩, ⟨none, "", none⟩] ∧
    " var y = 1;" ≠
      sourceSlice "<script> import a from 'x'; var y = 1; </script>" 9 38 := by
  refine ⟨?_, ?_, ?_⟩
  · rfl
  · rfl
  · decide

theorem empty_template_defensive (source : String) (removed : List (Nat × Nat))
    (f : String) (module : String) (segs : List BundleSource)
    (hsplit : jsSplit module "✂]" = [module])
    (hok : generateSegments source removed (some f) module = some segs) :
    segs = [⟨some f, "", none⟩, ⟨none, module, none⟩] ∧
    segs.countP (fun seg => seg.filename == some f) = 1 := by
  unfold generateSegments at hok
  rw [hsplit] at hok
  simp only [List.dropLast_single, List.isEmpty_nil] at hok
  have hemit : emitParts source removed (some f) [] = some [] := rfl
  rw [hemit] at hok
  simp only [Option.some.injEq] at hok
  rw [msSnip_full_remove] at hok
  have hsegs : segs = [⟨some f, "", none⟩, ⟨none, module, none⟩] := by
    rw [← hok]
    simp
  refine ⟨hsegs, ?_⟩
  rw [hsegs]
  simp [List.countP_cons]

theorem empty_template_defensive_witness :
    ([⟨some "App.html", "", none⟩, ⟨none, "var x = 1;", none⟩] :
        List BundleSource) =
      [⟨some "App.html", "", none⟩, ⟨none, "var x = 1;", none⟩] ∧
    ([⟨some "App.html", "", none⟩, ⟨none, "var x = 1;", none⟩] :
        List BundleSource).countP (fun seg => seg.filename == some "App.html") = 1 :=
  empty_template_defensive "let y = 2;" [] "App.html" "var x = 1;"
    [⟨some "App.html", "", none⟩, ⟨none, "var x = 1;", none⟩] rfl rfl

theorem missing_template_var_not_fatal :
    replaceSigils ⟨false, ∅, ∅, false, false⟩ [] ⟨⟨∅, ∅, []⟩, ∅⟩ "%missing" =
      ("undefined", ⟨⟨∅, ∅, []⟩, ∅⟩) := rfl

theorem missing_template_var_degrades (cfg : CompileConfig)
    (templateVars : List (String × String)) (st : EmitState) (name : String)
    (hmiss : templateVars.lookup name = none) :
    (resolveSigil cfg templateVars st "%" name).1 = "undefined" ∧
    (resolveSigil cfg templateVars st "%" name).2 = st ∧
    (∀ hname : String,
      (resolveSigil cfg templateVars st "@" hname).1 =
        (Component.«alias» cfg st.naming
          (if hname ∈ cfg.shared ∧ (cfg.dev && (hname ++ "Dev") ∈ cfg.shared)
            then hname ++ "Dev" else hname)).1) := by
  have h1 : ("%" : String) ≠ "@" := by decide
  refine ⟨?_, ?_, ?_⟩
  · simp [resolveSigil, h1, hmiss, jsCoerceString]
  · simp [resolveSigil, h1, hmiss]
  · intro hname
    by_cases hs : hname ∈ cfg.shared
    · by_cases hd : (cfg.dev && decide ((hname ++ "Dev") ∈ cfg.shared)) = true
      · simp [resolveSigil, hs, hd]
      · simp [resolveSigil, hs, hd]
    · simp [resolveSigil, hs]

theorem missing_template_var_degrades_witness :
    (resolveSigil ⟨false, ∅, ∅, false, false⟩ [("slot", "slot_0")]
        ⟨⟨∅, ∅, []⟩, ∅⟩ "%" "other").1 = "undefined" ∧
    (resolveSigil ⟨false, ∅, ∅, false, false⟩ [("slot", "slot_0")]
        ⟨⟨∅, ∅, []⟩, ∅⟩ "%" "other").2 = ⟨⟨∅, ∅, []⟩, ∅⟩ ∧
    (∀ hname : String,
      (resolveSigil ⟨false, ∅, ∅, false, false⟩ [("slot", "slot_0")]
          ⟨⟨∅, ∅, []⟩, ∅⟩ "@" hname).1 =
        (Component.«alias» ⟨false, ∅, ∅, false, false⟩
          (EmitState.mk ⟨∅, ∅, []⟩ ∅).naming
          (if hname ∈ (⟨false, ∅, ∅, false, false⟩ : CompileConfig).shared ∧
              ((⟨false, ∅, ∅, false, false⟩ : CompileConfig).dev &&
                (hname ++ "Dev") ∈ (⟨false, ∅, ∅, false, false⟩ : CompileConfig).shared)
            then hname ++ "Dev" else hname)).1) :=
  missing_template_var_degrades ⟨false, ∅, ∅, false, false⟩ [("slot", "slot_0")]
    ⟨⟨∅, ∅, []⟩, ∅⟩ "other" rfl
